import Mathlib

/-!
Shallow embedding of the multi-tenant carwash API (`src/carwash_api.py`).

MongoDB collections are modelled as Lean lists in insertion order.  The Mongo
primitives used by the source are modelled faithfully:

* `find_one filter`                  → `List.find?` with the filter predicate
  (Mongo returns the first document in natural = insertion order);
* `insert_one doc`                   → append to the end of the list, drawing a
  fresh `_id` from a monotone counter (`DB.nextId`);
* `update_one filter {$set: ...}`    → rewrite the first matching document and
  report `modified_count`, which in Mongo counts documents *actually changed*
  (a `$set` that leaves every field equal reports `modified_count = 0` even
  though `matched_count = 1`);
* `find_one_and_update filter {$inc} return_document=After`
                                     → rewrite the first matching document and
  return the rewritten document.

ObjectIds are modelled as `Nat`; `business_id` strings (the source stores
`str(ObjectId)`) are likewise `Nat`, compared by equality exactly as the
source compares the strings.  HTTP errors are an inductive type recording the
raise site, with `statusCode` giving the `HTTPException` status code used at
that site in the source.
-/

namespace Carwash

/-- `POINTS_PER_WASH` constant of the source (line 178). -/
def POINTS_PER_WASH : Nat := 1

/-- A document of the `cars` collection (Pydantic model `Car`). -/
structure Car where
  id : Nat
  business_id : Nat
  plate : String
  car_type : String
  owner_name : String
  owner_phone : String
  loyalty_points : Nat
deriving DecidableEq, Repr

/-- A document of the `assignments` collection (Pydantic model `Assignment`).
`status` is the literal string stored by the source
("Pending" / "Washing" / "Completed"). -/
structure Assignment where
  id : Nat
  business_id : Nat
  car_plate : String
  employee_name : String
  service_type : String
  status : String
  points_earned : Nat
deriving DecidableEq, Repr

/-- A document of the `users` collection (created by `signup`). -/
structure User where
  username : String
  hashed_password : String
  business_id : Nat
deriving DecidableEq, Repr

/-- A document of the `businesses` collection. -/
structure Business where
  id : Nat
  name : String
deriving DecidableEq, Repr

/-- Request body of `POST /cars/` (Pydantic model `CarCreate`). -/
structure CarCreate where
  plate : String
  car_type : String
  owner_name : String
  owner_phone : String
deriving DecidableEq, Repr

/-- Request body of `POST /assignments/` (Pydantic model `AssignmentCreate`). -/
structure AssignmentCreate where
  car_plate : String
  employee_name : String
  service_type : String
deriving DecidableEq, Repr

/-- Request body of `POST /auth/signup` (Pydantic model `SignupData`). -/
structure SignupData where
  business_name : String
  username : String
  password : String
deriving DecidableEq, Repr

/-- The authenticated caller, as resolved by `get_current_user`: the source
passes the user document and reads `current_user["business_id"]`. -/
structure AuthContext where
  username : String
  business_id : Nat
deriving DecidableEq, Repr

/-- The backing store: the four collections plus the fresh-`ObjectId` counter. -/
structure DB where
  businesses : List Business
  users : List User
  cars : List Car
  assignments : List Assignment
  nextId : Nat
deriving DecidableEq, Repr

/-- One constructor per `HTTPException` raise site of the source that the
embedded operations can reach. -/
inductive ApiError where
  /-- line 311: malformed ObjectId string → 400. -/
  | invalidId
  /-- line 315: assignment lookup by `_id` found nothing → 404. -/
  | assignmentNotFound
  /-- line 320: assignment belongs to another business → 403. -/
  | forbidden
  /-- line 323: assignment already has `status == "Completed"` → 400. -/
  | alreadyCompleted
  /-- line 336: conditional update reported `modified_count == 0` → 404. -/
  | updateNotFound
  /-- line 347: vehicle vanished before the points credit → 404. -/
  | creditNotFound
  /-- lines 252 / 263 / 284: car lookup by plate found nothing → 404. -/
  | carNotFound
deriving DecidableEq, Repr

/-- The `status_code` of the `HTTPException` raised at each site. -/
def ApiError.statusCode : ApiError → Nat
  | .invalidId => 400
  | .assignmentNotFound => 404
  | .forbidden => 403
  | .alreadyCompleted => 400
  | .updateNotFound => 404
  | .creditNotFound => 404
  | .carNotFound => 404

/-- Model of `collection.update_one(filter, {"$set": ...})`: rewrite the first
document matching `p` with `f` and return the new list together with
`modified_count`, which is `1` only when the rewrite actually changed the
document (Mongo does not count a no-op `$set` as modified). -/
def updateOne {α : Type} [DecidableEq α] (p : α → Bool) (f : α → α) :
    List α → List α × Nat
  | [] => ([], 0)
  | a :: rest =>
    if p a then
      (f a :: rest, if f a = a then 0 else 1)
    else
      let r := updateOne p f rest
      (a :: r.1, r.2)

/-- Model of `collection.find_one_and_update(filter, {"$inc": ...},
return_document=True)`: rewrite the first document matching `p` with `f`,
returning the rewritten document (Mongo `After` semantics) and the new list. -/
def findOneAndUpdate {α : Type} (p : α → Bool) (f : α → α) :
    List α → Option α × List α
  | [] => (none, [])
  | a :: rest =>
    if p a then
      (some (f a), f a :: rest)
    else
      let r := findOneAndUpdate p f rest
      (r.1, a :: r.2)

/-- Modelled from the spec: password hashing is an external collaborator
(`passlib` bcrypt, §1 "Out of scope ... password hashing primitives"); the
source only ever stores `get_password_hash(password)` and never inspects it,
so any concrete function is faithful. -/
def get_password_hash (password : String) : String :=
  String.append "bcrypt$" password

/-- `POST /auth/signup` (lines 193-204): insert a business, then insert an
admin user for it.  Returns the new `business_id` and the new store.  Note the
source performs no username-uniqueness check of any kind. -/
def signup (data : SignupData) (db : DB) : Nat × DB :=
  let business_id := db.nextId
  let db1 : DB := { db with
    businesses := db.businesses ++ [{ id := business_id, name := data.business_name }],
    nextId := db.nextId + 1 }
  let user : User :=
    { username := data.username,
      hashed_password := get_password_hash data.password,
      business_id := business_id }
  (business_id, { db1 with users := db1.users ++ [user] })

/-- Python's `str.upper()` as used on plates (`car.plate.upper()`), applied
character-wise; plates are ASCII, where this agrees with Python. -/
def upper (s : String) : String :=
  ⟨s.data.map Char.toUpper⟩

/-- The `find_one` filter `{"plate": plate_key, "business_id": business_id}`
shared by the car endpoints. -/
def carKey (business_id : Nat) (plate_key : String) (c : Car) : Bool :=
  c.plate == plate_key && c.business_id == business_id

/-- `POST /cars/` (`register_car`, lines 223-238): uppercase the plate; if a
car with `(plate, business_id)` exists return it unchanged, else insert a new
car with `loyalty_points = 0` and return it. -/
def register_car (ctx : AuthContext) (car : CarCreate) (db : DB) : Car × DB :=
  let plate_key := upper car.plate
  match db.cars.find? (carKey ctx.business_id plate_key) with
  | some existing => (existing, db)
  | none =>
    let created : Car :=
      { id := db.nextId, business_id := ctx.business_id,
        plate := plate_key, car_type := car.car_type, owner_name := car.owner_name,
        owner_phone := car.owner_phone, loyalty_points := 0 }
    (created, { db with cars := db.cars ++ [created], nextId := db.nextId + 1 })

/-- `GET /cars/` (`list_cars`, lines 240-244): all cars of the business,
truncated by `.to_list(1000)`. -/
def list_cars (ctx : AuthContext) (db : DB) : List Car :=
  ((db.cars.filter fun c => c.business_id == ctx.business_id).take 1000)

/-- `GET /cars/{plate}` (`get_car`, lines 246-253). -/
def get_car (ctx : AuthContext) (plate : String) (db : DB) : Except ApiError Car :=
  let plate_key := upper plate
  match db.cars.find? (carKey ctx.business_id plate_key) with
  | none => .error .carNotFound
  | some c => .ok c

/-- Insertion sort of assignments by `_id` descending, modelling
`.sort("_id", -1)`. -/
def insertByIdDesc (a : Assignment) : List Assignment → List Assignment
  | [] => [a]
  | b :: rest =>
    if b.id ≤ a.id then a :: b :: rest else b :: insertByIdDesc a rest

/-- Sort a list of assignments by `_id` descending (`.sort("_id", -1)`). -/
def sortByIdDesc : List Assignment → List Assignment
  | [] => []
  | a :: rest => insertByIdDesc a (sortByIdDesc rest)

/-- The history filter
`{"car_plate": plate_key, "status": "Completed", "business_id": business_id}`. -/
def historyKey (business_id : Nat) (plate_key : String) (a : Assignment) : Bool :=
  a.car_plate == plate_key && a.status == "Completed" && a.business_id == business_id

/-- `GET /cars/{plate}/history` (`get_car_history`, lines 255-272): 404 if the
car is unknown to the business, else the completed assignments for the plate
and business, most recent (`_id` descending) first, truncated by
`.to_list(1000)`. -/
def get_car_history (ctx : AuthContext) (plate : String) (db : DB) :
    Except ApiError (List Assignment) :=
  let plate_key := upper plate
  match db.cars.find? (carKey ctx.business_id plate_key) with
  | none => .error .carNotFound
  | some _ =>
    .ok ((sortByIdDesc (db.assignments.filter (historyKey ctx.business_id plate_key))).take 1000)

/-- `POST /assignments/` (`create_assignment`, lines 278-298): 404 unless the
plate resolves to a car of the business, else insert an assignment with
`status = "Washing"` and `points_earned = 0`. -/
def create_assignment (ctx : AuthContext) (data : AssignmentCreate) (db : DB) :
    Except ApiError Assignment × DB :=
  let plate_key := upper data.car_plate
  match db.cars.find? (carKey ctx.business_id plate_key) with
  | none => (.error .carNotFound, db)
  | some _ =>
    let created : Assignment :=
      { id := db.nextId, business_id := ctx.business_id,
        car_plate := plate_key, employee_name := data.employee_name,
        service_type := data.service_type, status := "Washing", points_earned := 0 }
    (.ok created, { db with assignments := db.assignments ++ [created], nextId := db.nextId + 1 })

/-- `GET /assignments/` (`list_assignments`, lines 300-304): assignments of the
business whose status is not `"Completed"`, truncated by `.to_list(1000)`. -/
def list_assignments (ctx : AuthContext) (db : DB) : List Assignment :=
  ((db.assignments.filter fun a => a.status != "Completed" && a.business_id == ctx.business_id).take 1000)

/-- The filter `{"_id": obj_id, "business_id": business_id}` of the
conditional update in `complete_assignment` (line 327). -/
def completeFilter (business_id : Nat) (assignment_id : Nat) (x : Assignment) : Bool :=
  x.id == assignment_id && x.business_id == business_id

/-- The `$set` document of the conditional update (lines 328-331). -/
def completeSet (x : Assignment) : Assignment :=
  { x with status := "Completed", points_earned := POINTS_PER_WASH }

/-- The `$inc` applied to the car by the points credit (line 342). -/
def creditInc (c : Car) : Car :=
  { c with loyalty_points := c.loyalty_points + POINTS_PER_WASH }

/-- `PUT /assignments/{assignment_id}/complete` (`complete_assignment`,
lines 306-349), for a well-formed id (the `ObjectId` parse of lines 308-311 is
string validation outside the model).  Returns the HTTP outcome together with
the store left behind. -/
def complete_assignment (ctx : AuthContext) (assignment_id : Nat) (db : DB) :
    Except ApiError Car × DB :=
  match db.assignments.find? (fun a => a.id == assignment_id) with
  | none => (.error .assignmentNotFound, db)
  | some a =>
    if a.business_id != ctx.business_id then (.error .forbidden, db)
    else if a.status == "Completed" then (.error .alreadyCompleted, db)
    else
      let upd := updateOne (completeFilter ctx.business_id assignment_id) completeSet db.assignments
      let db1 : DB := { db with assignments := upd.1 }
      if upd.2 == 0 then (.error .updateNotFound, db1)
      else
        let credit := findOneAndUpdate (carKey ctx.business_id a.car_plate) creditInc db1.cars
        let db2 : DB := { db1 with cars := credit.2 }
        match credit.1 with
        | none => (.error .creditNotFound, db2)
        | some c => (.ok c, db2)

/-!
Interleaving model of concurrent `complete_assignment` calls (spec §5: each
inbound request may run concurrently with any other; the shared mutable state
is the backing store, and each individual Mongo call is atomic).  A call in
flight is a thread whose phase records which of its three store operations it
has already performed; the checks between store calls are pure local
computation and belong to the step that follows the read they inspect.
-/

deriving instance DecidableEq for Except

/-- The program counter of one in-flight `complete_assignment` call. -/
inductive TPhase where
  /-- about to perform the `find_one` of line 312. -/
  | start
  /-- passed the tenancy and idempotency checks holding the read document `a`;
  about to perform the conditional `update_one` of lines 326-332. -/
  | afterRead (a : Assignment)
  /-- conditional update modified one row; about to perform the
  `find_one_and_update` points credit of lines 340-344, using the plate of the
  read document `a`. -/
  | afterUpdate (a : Assignment)
  /-- request finished with HTTP outcome `r`. -/
  | finished (r : Except ApiError Car)
deriving DecidableEq, Repr

/-- One in-flight `complete_assignment` request. -/
structure Thread where
  ctx : AuthContext
  target : Nat
  phase : TPhase
deriving DecidableEq, Repr

/-- Run the next atomic store operation (plus the pure checks after it) of one
request against the shared store. -/
def threadStep (ctx : AuthContext) (target : Nat) (phase : TPhase) (db : DB) :
    TPhase × DB :=
  match phase with
  | .start =>
    match db.assignments.find? (fun a => a.id == target) with
    | none => (.finished (.error .assignmentNotFound), db)
    | some a =>
      if a.business_id != ctx.business_id then (.finished (.error .forbidden), db)
      else if a.status == "Completed" then (.finished (.error .alreadyCompleted), db)
      else (.afterRead a, db)
  | .afterRead a =>
    let upd := updateOne (completeFilter ctx.business_id target) completeSet db.assignments
    let db1 : DB := { db with assignments := upd.1 }
    if upd.2 == 0 then (.finished (.error .updateNotFound), db1)
    else (.afterUpdate a, db1)
  | .afterUpdate a =>
    let credit := findOneAndUpdate (carKey ctx.business_id a.car_plate) creditInc db.cars
    let db1 : DB := { db with cars := credit.2 }
    match credit.1 with
    | none => (.finished (.error .creditNotFound), db1)
    | some c => (.finished (.ok c), db1)
  | .finished r => (.finished r, db)

/-- Shared store plus the in-flight requests. -/
structure Config where
  db : DB
  threads : List Thread
deriving DecidableEq, Repr

/-- Let thread `i` take its next atomic step (no-op for an out-of-range index
or a finished thread). -/
def schedStep (cfg : Config) (i : Nat) : Config :=
  match cfg.threads.get? i with
  | none => cfg
  | some t =>
    let s := threadStep t.ctx t.target t.phase cfg.db
    { db := s.2, threads := cfg.threads.set i { t with phase := s.1 } }

/-- Run a schedule: at each step the scheduler picks which thread moves. -/
def runSched (cfg : Config) : List Nat → Config
  | [] => cfg
  | i :: rest => runSched (schedStep cfg i) rest

/-- `true` iff the request has produced its HTTP outcome. -/
def TPhase.isFinished : TPhase → Bool
  | .finished _ => true
  | _ => false

/-- `true` iff the request has won the conditional update and is about to
credit the points. -/
def TPhase.isCrediting : TPhase → Bool
  | .afterUpdate _ => true
  | _ => false

/-- Number of threads that have won the conditional update but not yet
credited the points. -/
def numCrediting : List Thread → Nat
  | [] => 0
  | t :: ts => (if t.phase.isCrediting then 1 else 0) + numCrediting ts

/-- The reachable-state invariant of any number of concurrent
`complete_assignment` calls racing on one assignment (first id-match `a0`,
surrounded by `pre`/`post`) of business `b`, whose owning car is `c0`
(surrounded by `cpre`/`cpost`): the assignment is either still `a0` or has
been marked completed exactly once, the car has received `k ∈ {0, 1}` credits,
and a credit can only be pending or applied once the mark has happened. -/
def Inv (b i : Nat) (a0 : Assignment) (pre post : List Assignment)
    (c0 : Car) (cpre cpost : List Car) (cfg : Config) : Prop :=
  ∃ (compl : Bool) (k : Nat),
    cfg.db.assignments = pre ++ (if compl then completeSet a0 else a0) :: post ∧
    cfg.db.cars = cpre ++ ({ c0 with loyalty_points := c0.loyalty_points + k }) :: cpost ∧
    (∀ t ∈ cfg.threads, t.target = i ∧ t.ctx.business_id = b ∧
      (t.phase = .start ∨ t.phase = .afterRead a0 ∨ t.phase = .afterUpdate a0 ∨
        ∃ r, t.phase = .finished r)) ∧
    (if compl then numCrediting cfg.threads + k = 1
     else k = 0 ∧ ∀ t ∈ cfg.threads, t.phase = .start ∨ t.phase = .afterRead a0)

/-- `n` simultaneous `complete_assignment` requests for assignment `i`, all
authenticated as `ctx`, started in a shared store `db` and interleaved by an
arbitrary schedule `σ`. -/
def raceRun (ctx : AuthContext) (i n : Nat) (db : DB) (σ : List Nat) : Config :=
  runSched { db := db, threads := List.replicate n { ctx := ctx, target := i, phase := .start } } σ

/-- The vehicle records belonging to business `b`. -/
def carsOf (b : Nat) (db : DB) : List Car :=
  db.cars.filter fun c => c.business_id == b

/-- The assignment records belonging to business `b`. -/
def assignmentsOf (b : Nat) (db : DB) : List Assignment :=
  db.assignments.filter fun a => a.business_id == b

/-!  Concrete fixtures used by the witness and counterexample theorems. -/

/-- A caller of business 1. -/
def ctxOne : AuthContext := { username := "alice", business_id := 1 }

/-- A vehicle of business 1 with plate "XYZ999" and no points yet. -/
def carX : Car :=
  { id := 10, business_id := 1, plate := "XYZ999", car_type := "sedan",
    owner_name := "Ana", owner_phone := "555", loyalty_points := 0 }

/-- An open (`"Washing"`) assignment of business 1 for plate "XYZ999". -/
def asgW : Assignment :=
  { id := 5, business_id := 1, car_plate := "XYZ999", employee_name := "Eve",
    service_type := "Lavado Completo", status := "Washing", points_earned := 0 }

/-- A store of business 1 holding `carX` and the open assignment `asgW`. -/
def dbOne : DB :=
  { businesses := [{ id := 1, name := "Acme" }], users := [],
    cars := [carX], assignments := [asgW], nextId := 20 }

/-- A store holding the open assignment `asgW` but no car at all. -/
def dbNoCar : DB :=
  { businesses := [{ id := 1, name := "Acme" }], users := [],
    cars := [], assignments := [asgW], nextId := 20 }

/-- An open assignment belonging to business 2, with the same id 5. -/
def asgOther : Assignment :=
  { id := 5, business_id := 2, car_plate := "AAA111", employee_name := "Eve",
    service_type := "Lavado Completo", status := "Washing", points_earned := 0 }

/-- A store whose only assignment belongs to business 2. -/
def dbOther : DB :=
  { businesses := [{ id := 2, name := "Beta" }], users := [],
    cars := [], assignments := [asgOther], nextId := 20 }

/-- An entirely empty store. -/
def emptyDB : DB :=
  { businesses := [], users := [], cars := [], assignments := [], nextId := 0 }

/-!  Generic lemmas about the Mongo-primitive models. -/

theorem find?_append_cons {α : Type} (p : α → Bool) (pre post : List α) (x : α)
    (hpre : ∀ y ∈ pre, p y = false) (hx : p x = true) :
    (pre ++ x :: post).find? p = some x := by
  induction pre with
  | nil => simpa using List.find?_cons_of_pos post hx
  | cons y ys ih =>
    have hy : p y = false := hpre y (by simp)
    rw [List.cons_append, List.find?_cons_of_neg _ (by simp [hy])]
    exact ih fun z hz => hpre z (by simp [hz])

theorem updateOne_append_cons {α : Type} [DecidableEq α] (p : α → Bool) (f : α → α)
    (pre post : List α) (x : α)
    (hpre : ∀ y ∈ pre, p y = false) (hx : p x = true) :
    updateOne p f (pre ++ x :: post)
      = (pre ++ f x :: post, if f x = x then 0 else 1) := by
  induction pre with
  | nil => simp [updateOne, hx]
  | cons y ys ih =>
    have hy : p y = false := hpre y (by simp)
    have ih' := ih fun z hz => hpre z (by simp [hz])
    simp [updateOne, hy, ih']

theorem findOneAndUpdate_append_cons {α : Type} (p : α → Bool) (f : α → α)
    (pre post : List α) (x : α)
    (hpre : ∀ y ∈ pre, p y = false) (hx : p x = true) :
    findOneAndUpdate p f (pre ++ x :: post) = (some (f x), pre ++ f x :: post) := by
  induction pre with
  | nil => simp [findOneAndUpdate, hx]
  | cons y ys ih =>
    have hy : p y = false := hpre y (by simp)
    have ih' := ih fun z hz => hpre z (by simp [hz])
    simp [findOneAndUpdate, hy, ih']

theorem find?_filter_of_imp {α : Type} (p q : α → Bool) (l : List α)
    (h : ∀ x, p x = true → q x = true) :
    (l.filter q).find? p = l.find? p := by
  induction l with
  | nil => rfl
  | cons a l ih =>
    by_cases hq : q a = true
    · rw [List.filter_cons_of_pos hq]
      by_cases hp : p a = true
      · rw [List.find?_cons_of_pos _ hp, List.find?_cons_of_pos _ hp]
      · rw [List.find?_cons_of_neg _ hp, List.find?_cons_of_neg _ hp, ih]
    · have hp : p a = false := by
        cases hpa : p a
        · rfl
        · exact absurd (h a hpa) hq
      rw [List.filter_cons_of_neg hq, List.find?_cons_of_neg _ (by simp [hp]), ih]

theorem filter_filter_of_imp {α : Type} (p q : α → Bool) (l : List α)
    (h : ∀ x, p x = true → q x = true) :
    (l.filter q).filter p = l.filter p := by
  induction l with
  | nil => rfl
  | cons a l ih =>
    by_cases hq : q a = true
    · rw [List.filter_cons_of_pos hq]
      by_cases hp : p a = true
      · rw [List.filter_cons_of_pos hp, List.filter_cons_of_pos hp, ih]
      · rw [List.filter_cons_of_neg (by simp_all), List.filter_cons_of_neg (by simp_all), ih]
    · have hp : p a = false := by
        cases hpa : p a
        · rfl
        · exact absurd (h a hpa) hq
      rw [List.filter_cons_of_neg hq, List.filter_cons_of_neg (by simp [hp]), ih]

theorem filter_updateOne_of_disjoint {α : Type} [DecidableEq α] (r p : α → Bool) (f : α → α)
    (l : List α)
    (h1 : ∀ x, p x = true → r x = false)
    (h2 : ∀ x, p x = true → r (f x) = false) :
    (updateOne p f l).1.filter r = l.filter r := by
  induction l with
  | nil => rfl
  | cons a l ih =>
    by_cases hp : p a = true
    · simp [updateOne, hp, List.filter_cons, h1 a hp, h2 a hp]
    · simp only [updateOne, hp, if_false, Bool.false_eq_true]
      cases hr : r a <;> simp [List.filter_cons, hr, ih]

theorem filter_findOneAndUpdate_of_disjoint {α : Type} (r p : α → Bool) (f : α → α)
    (l : List α)
    (h1 : ∀ x, p x = true → r x = false)
    (h2 : ∀ x, p x = true → r (f x) = false) :
    (findOneAndUpdate p f l).2.filter r = l.filter r := by
  induction l with
  | nil => rfl
  | cons a l ih =>
    by_cases hp : p a = true
    · simp [findOneAndUpdate, hp, List.filter_cons, h1 a hp, h2 a hp]
    · simp only [findOneAndUpdate, hp, if_false, Bool.false_eq_true]
      cases hr : r a <;> simp [List.filter_cons, hr, ih]

/-!  Bookkeeping for the race analysis: how many in-flight requests have won
the conditional update but not yet credited the points. -/

theorem numCrediting_set (ts : List Thread) (j : Nat) (t t' : Thread)
    (h : ts.get? j = some t) :
    numCrediting (ts.set j t') + (if t.phase.isCrediting then 1 else 0)
      = numCrediting ts + (if t'.phase.isCrediting then 1 else 0) := by
  induction ts generalizing j with
  | nil => simp at h
  | cons a ts ih =>
    cases j with
    | zero =>
      simp only [List.get?] at h
      cases h
      simp only [List.set, numCrediting]
      omega
    | succ j =>
      simp only [List.get?] at h
      simp only [List.set, numCrediting]
      have := ih j h
      omega

theorem numCrediting_eq_zero (ts : List Thread)
    (h : ∀ t ∈ ts, t.phase.isCrediting = false) : numCrediting ts = 0 := by
  induction ts with
  | nil => rfl
  | cons a ts ih =>
    simp only [numCrediting, h a (by simp)]
    simpa using ih fun t ht => h t (by simp [ht])

theorem forall_mem_set {α : Type} {P : α → Prop} (ts : List α) (j : Nat) (t' : α)
    (h : ∀ x ∈ ts, P x) (h' : P t') : ∀ x ∈ ts.set j t', P x := by
  intro x hx
  rcases List.mem_or_eq_of_mem_set hx with h1 | h1
  · exact h x h1
  · exact h1 ▸ h'

theorem schedStep_length (cfg : Config) (j : Nat) :
    (schedStep cfg j).threads.length = cfg.threads.length := by
  cases hget : cfg.threads[j]? with
  | none => simp [schedStep, hget]
  | some t => simp [schedStep, hget]

theorem runSched_length (σ : List Nat) (cfg : Config) :
    (runSched cfg σ).threads.length = cfg.threads.length := by
  induction σ generalizing cfg with
  | nil => rfl
  | cons j σ ih => rw [runSched, ih, schedStep_length]

/-- One scheduler step preserves the race invariant. -/
theorem Inv_schedStep (b i : Nat) (a0 : Assignment) (pre post : List Assignment)
    (c0 : Car) (cpre cpost : List Car)
    (hpre : ∀ y ∈ pre, (y.id == i) = false)
    (hai : a0.id = i) (hab : a0.business_id = b) (hast : a0.status ≠ "Completed")
    (hcpre : ∀ y ∈ cpre, carKey b a0.car_plate y = false)
    (hcp : c0.plate = a0.car_plate) (hcb : c0.business_id = b)
    (cfg : Config) (j : Nat)
    (hinv : Inv b i a0 pre post c0 cpre cpost cfg) :
    Inv b i a0 pre post c0 cpre cpost (schedStep cfg j) := by
  rcases hinv with ⟨compl, k, hA, hC, hT, hcond⟩
  cases hget : cfg.threads[j]? with
  | none =>
    have he : schedStep cfg j = cfg := by simp [schedStep, hget]
    rw [he]
    exact ⟨compl, k, hA, hC, hT, hcond⟩
  | some t =>
    have hget' : cfg.threads.get? j = some t := by
      rw [List.get?_eq_getElem?]; exact hget
    have hmem := List.get?_mem hget'
    obtain ⟨hti, htb, hph⟩ := hT t hmem
    have hsched : schedStep cfg j
        = { db := (threadStep t.ctx t.target t.phase cfg.db).2,
            threads := cfg.threads.set j
              { t with phase := (threadStep t.ctx t.target t.phase cfg.db).1 } } := by
      simp [schedStep, hget]
    rw [hsched]
    have hpreF : ∀ y ∈ pre, completeFilter b i y = false := by
      intro y hy; simp [completeFilter, hpre y hy]
    rcases hph with hph | hph | hph | ⟨r, hph⟩
    · -- the thread is about to perform the initial read
      cases compl with
      | false =>
        simp only [Bool.false_eq_true, if_false] at hA hcond
        obtain ⟨hk, hSR⟩ := hcond
        have hfind : cfg.db.assignments.find? (fun x => x.id == i) = some a0 := by
          rw [hA]; exact find?_append_cons _ _ _ _ hpre (by simp [hai])
        have hts : threadStep t.ctx t.target t.phase cfg.db = (.afterRead a0, cfg.db) := by
          rw [hph, hti]
          simp [threadStep, hfind, hab, htb, hast]
        rw [hts]
        refine ⟨false, k, by simpa using hA, hC, ?_, ?_⟩
        · exact forall_mem_set _ _ _ hT ⟨hti, htb, Or.inr (Or.inl rfl)⟩
        · simp only [Bool.false_eq_true, if_false]
          exact ⟨hk, forall_mem_set _ _ _ hSR (Or.inr rfl)⟩
      | true =>
        simp only [if_true] at hA hcond
        have hfind : cfg.db.assignments.find? (fun x => x.id == i) = some (completeSet a0) := by
          rw [hA]; exact find?_append_cons _ _ _ _ hpre (by simp [completeSet, hai])
        have hts : threadStep t.ctx t.target t.phase cfg.db
            = (.finished (.error .alreadyCompleted), cfg.db) := by
          rw [hph, hti]
          simp [threadStep, hfind, completeSet, hab, htb]
        rw [hts]
        have hnum := numCrediting_set cfg.threads j t
          { t with phase := .finished (.error .alreadyCompleted) } hget'
        rw [hph] at hnum
        simp [TPhase.isCrediting] at hnum
        refine ⟨true, k, by simpa using hA, hC, ?_, ?_⟩
        · exact forall_mem_set _ _ _ hT ⟨hti, htb, Or.inr (Or.inr (Or.inr ⟨_, rfl⟩))⟩
        · simp only [if_true]
          omega
    · -- the thread is about to perform the conditional update
      cases compl with
      | false =>
        simp only [Bool.false_eq_true, if_false] at hA hcond
        obtain ⟨hk, hSR⟩ := hcond
        have hxF : completeFilter b i a0 = true := by simp [completeFilter, hai, hab]
        have hne : completeSet a0 ≠ a0 := fun h => hast ((congrArg Assignment.status h).symm)
        have hupd : updateOne (completeFilter b i) completeSet cfg.db.assignments
            = (pre ++ completeSet a0 :: post, 1) := by
          rw [hA, updateOne_append_cons _ _ _ _ _ hpreF hxF, if_neg hne]
        have hts : threadStep t.ctx t.target t.phase cfg.db
            = (.afterUpdate a0, { cfg.db with assignments := pre ++ completeSet a0 :: post }) := by
          rw [hph, hti]
          simp [threadStep, hupd, htb]
        rw [hts]
        have hnum := numCrediting_set cfg.threads j t
          { t with phase := .afterUpdate a0 } hget'
        rw [hph] at hnum
        simp [TPhase.isCrediting] at hnum
        have hzero : numCrediting cfg.threads = 0 :=
          numCrediting_eq_zero _ fun x hx => by
            rcases hSR x hx with h | h <;> rw [h] <;> rfl
        refine ⟨true, k, by simp, by simpa using hC, ?_, ?_⟩
        · exact forall_mem_set _ _ _ hT ⟨hti, htb, Or.inr (Or.inr (Or.inl rfl))⟩
        · simp only [if_true]
          omega
      | true =>
        simp only [if_true] at hA hcond
        have hxF : completeFilter b i (completeSet a0) = true := by
          simp [completeFilter, completeSet, hai, hab]
        have hupd : updateOne (completeFilter b i) completeSet cfg.db.assignments
            = (pre ++ completeSet a0 :: post, 0) := by
          rw [hA, updateOne_append_cons _ _ _ _ _ hpreF hxF]
          rw [show completeSet (completeSet a0) = completeSet a0 from rfl, if_pos rfl]
        have hts : threadStep t.ctx t.target t.phase cfg.db
            = (.finished (.error .updateNotFound),
               { cfg.db with assignments := pre ++ completeSet a0 :: post }) := by
          rw [hph, hti]
          simp [threadStep, hupd, htb]
        rw [hts]
        have hnum := numCrediting_set cfg.threads j t
          { t with phase := .finished (.error .updateNotFound) } hget'
        rw [hph] at hnum
        simp [TPhase.isCrediting] at hnum
        refine ⟨true, k, by simp, by simpa using hC, ?_, ?_⟩
        · exact forall_mem_set _ _ _ hT ⟨hti, htb, Or.inr (Or.inr (Or.inr ⟨_, rfl⟩))⟩
        · simp only [if_true]
          omega
    · -- the thread is about to perform the points credit
      cases compl with
      | false =>
        obtain ⟨hk, hSR⟩ := by simpa using hcond
        have := hSR t hmem
        rw [hph] at this
        simp at this
      | true =>
        simp only [if_true] at hA hcond
        have hnum := numCrediting_set cfg.threads j t
          { t with phase := .finished (.ok (creditInc { c0 with
              loyalty_points := c0.loyalty_points + k })) } hget'
        rw [hph] at hnum
        simp [TPhase.isCrediting] at hnum
        have hk : k = 0 := by omega
        subst hk
        have hcKey : carKey b a0.car_plate
            ({ c0 with loyalty_points := c0.loyalty_points + 0 }) = true := by
          simp [carKey, hcp, hcb]
        have hcredit : findOneAndUpdate (carKey b a0.car_plate) creditInc cfg.db.cars
            = (some (creditInc { c0 with loyalty_points := c0.loyalty_points + 0 }),
               cpre ++ creditInc { c0 with loyalty_points := c0.loyalty_points + 0 } :: cpost) := by
          rw [hC, findOneAndUpdate_append_cons _ _ _ _ _ hcpre hcKey]
        have hts : threadStep t.ctx t.target t.phase cfg.db
            = (.finished (.ok (creditInc { c0 with loyalty_points := c0.loyalty_points + 0 })),
               { cfg.db with
                 cars := cpre ++ creditInc { c0 with
                   loyalty_points := c0.loyalty_points + 0 } :: cpost }) := by
          rw [hph]
          simp [threadStep, hcredit, htb]
        rw [hts]
        refine ⟨true, 1, by simpa using hA, ?_, ?_, ?_⟩
        · show cpre ++ creditInc { c0 with loyalty_points := c0.loyalty_points + 0 } :: cpost
            = cpre ++ ({ c0 with loyalty_points := c0.loyalty_points + 1 }) :: cpost
          simp [creditInc, POINTS_PER_WASH]
        · exact forall_mem_set _ _ _ hT ⟨hti, htb, Or.inr (Or.inr (Or.inr ⟨_, rfl⟩))⟩
        · simp only [if_true]
          omega
    · -- the thread already finished: its step is a no-op
      have hts : threadStep t.ctx t.target t.phase cfg.db = (.finished r, cfg.db) := by
        rw [hph]; rfl
      rw [hts]
      cases compl with
      | false =>
        obtain ⟨hk, hSR⟩ := by simpa using hcond
        have := hSR t hmem
        rw [hph] at this
        simp at this
      | true =>
        simp only [if_true] at hcond
        have hnum := numCrediting_set cfg.threads j t
          { t with phase := .finished r } hget'
        rw [hph] at hnum
        simp [TPhase.isCrediting] at hnum
        refine ⟨true, k, hA, hC, ?_, ?_⟩
        · exact forall_mem_set _ _ _ hT ⟨hti, htb, Or.inr (Or.inr (Or.inr ⟨_, rfl⟩))⟩
        · simp only [if_true]
          omega

/-- The race invariant is preserved by any schedule. -/
theorem Inv_runSched (b i : Nat) (a0 : Assignment) (pre post : List Assignment)
    (c0 : Car) (cpre cpost : List Car)
    (hpre : ∀ y ∈ pre, (y.id == i) = false)
    (hai : a0.id = i) (hab : a0.business_id = b) (hast : a0.status ≠ "Completed")
    (hcpre : ∀ y ∈ cpre, carKey b a0.car_plate y = false)
    (hcp : c0.plate = a0.car_plate) (hcb : c0.business_id = b)
    (σ : List Nat) (cfg : Config)
    (hinv : Inv b i a0 pre post c0 cpre cpost cfg) :
    Inv b i a0 pre post c0 cpre cpost (runSched cfg σ) := by
  induction σ generalizing cfg with
  | nil => exact hinv
  | cons j σ ih =>
    exact ih _ (Inv_schedStep b i a0 pre post c0 cpre cpost
      hpre hai hab hast hcpre hcp hcb cfg j hinv)

theorem findOneAndUpdate_no_match {α : Type} (p : α → Bool) (f : α → α) (l : List α)
    (h : ∀ x ∈ l, p x = false) :
    findOneAndUpdate p f l = (none, l) := by
  induction l with
  | nil => rfl
  | cons a l ih =>
    have ha : p a = false := h a (by simp)
    have ih' := ih fun x hx => h x (by simp [hx])
    simp [findOneAndUpdate, ha, ih']

theorem length_insertByIdDesc (a : Assignment) (l : List Assignment) :
    (insertByIdDesc a l).length = l.length + 1 := by
  induction l with
  | nil => rfl
  | cons b l ih =>
    by_cases h : b.id ≤ a.id
    · simp [insertByIdDesc, h]
    · simp [insertByIdDesc, h, ih]

theorem length_sortByIdDesc (l : List Assignment) :
    (sortByIdDesc l).length = l.length := by
  induction l with
  | nil => rfl
  | cons a l ih => simp [sortByIdDesc, length_insertByIdDesc, ih]

theorem register_car_find (ctx : AuthContext) (cc : CarCreate) (db : DB) :
    ((register_car ctx cc db).2).cars.find? (carKey ctx.business_id (upper cc.plate))
      = some (register_car ctx cc db).1 := by
  cases hfind : db.cars.find? (carKey ctx.business_id (upper cc.plate)) with
  | some c => simp [register_car, hfind]
  | none => simp [register_car, hfind, carKey]

/-!  Claim theorems. -/

/-- C1: for every assignment (decomposed here as the first id-match of the
store) whose business matches the caller's and whose status is not yet
`"Completed"`, with the owning vehicle present: the first `complete` call
succeeds and returns the owning vehicle with `loyalty_points` incremented by
exactly `POINTS_PER_WASH = 1`, and a second sequential `complete` call on the
resulting store fails with `AlreadyCompleted` and leaves the store — hence the
vehicle's `loyalty_points` and the assignment's record — unchanged. -/
theorem complete_twice_first_awards_then_already_completed
    (ctx : AuthContext) (pre post : List Assignment) (a : Assignment)
    (cpre cpost : List Car) (c : Car) (db : DB)
    (hA : db.assignments = pre ++ a :: post)
    (hpre : ∀ y ∈ pre, (y.id == a.id) = false)
    (hab : a.business_id = ctx.business_id)
    (hast : a.status ≠ "Completed")
    (hC : db.cars = cpre ++ c :: cpost)
    (hcpre : ∀ y ∈ cpre, carKey ctx.business_id a.car_plate y = false)
    (hcp : c.plate = a.car_plate) (hcb : c.business_id = ctx.business_id) :
    (complete_assignment ctx a.id db).1
        = .ok { c with loyalty_points := c.loyalty_points + POINTS_PER_WASH } ∧
    complete_assignment ctx a.id (complete_assignment ctx a.id db).2
        = (.error .alreadyCompleted, (complete_assignment ctx a.id db).2) := by
  have hfind : db.assignments.find? (fun x => x.id == a.id) = some a := by
    rw [hA]; exact find?_append_cons _ _ _ _ hpre (by simp)
  have hbus : (a.business_id != ctx.business_id) = false := by simp [hab]
  have hst : (a.status == "Completed") = false := by simp [hast]
  have hpreF : ∀ y ∈ pre, completeFilter ctx.business_id a.id y = false := by
    intro y hy; simp [completeFilter, hpre y hy]
  have hxF : completeFilter ctx.business_id a.id a = true := by
    simp [completeFilter, hab]
  have hne : completeSet a ≠ a := fun h => hast ((congrArg Assignment.status h).symm)
  have hupd : updateOne (completeFilter ctx.business_id a.id) completeSet db.assignments
      = (pre ++ completeSet a :: post, 1) := by
    rw [hA, updateOne_append_cons _ _ _ _ _ hpreF hxF, if_neg hne]
  have hcKey : carKey ctx.business_id a.car_plate c = true := by
    simp [carKey, hcp, hcb]
  have hcredit : findOneAndUpdate (carKey ctx.business_id a.car_plate) creditInc db.cars
      = (some (creditInc c), cpre ++ creditInc c :: cpost) := by
    rw [hC, findOneAndUpdate_append_cons _ _ _ _ _ hcpre hcKey]
  have h1 : complete_assignment ctx a.id db
      = (.ok (creditInc c),
         { db with assignments := pre ++ completeSet a :: post,
                   cars := cpre ++ creditInc c :: cpost }) := by
    simp [complete_assignment, hfind, hbus, hst, hupd, hcredit]
  have hfind2 : (pre ++ completeSet a :: post).find? (fun x => x.id == a.id)
      = some (completeSet a) :=
    find?_append_cons _ _ _ _ hpre (by simp [completeSet])
  refine ⟨by rw [h1]; rfl, ?_⟩
  rw [h1]
  have hfindN : List.find? (fun x => x.id == a.id) pre = none := by
    rw [List.find?_eq_none]
    intro y hy
    simp [hpre y hy]
  simp [complete_assignment, completeSet, hfindN, hab]

/-- C4: `complete` called with a context whose business differs from the
business of the (existing) target assignment fails with `Forbidden`
(HTTP 403) and returns the store untouched: no assignment and no vehicle is
mutated. -/
theorem complete_cross_tenant_forbidden_no_mutation
    (ctx : AuthContext) (i : Nat) (a : Assignment) (db : DB)
    (hfind : db.assignments.find? (fun x => x.id == i) = some a)
    (hb : a.business_id ≠ ctx.business_id) :
    complete_assignment ctx i db = (.error .forbidden, db) ∧
    ApiError.statusCode .forbidden = 403 := by
  refine ⟨?_, rfl⟩
  simp [complete_assignment, hfind, hb]

/-- C3: for every `n` and every schedule `σ`, `n` concurrently interleaved
`complete_assignment` calls on the same assignment id `i` (owned, not yet
completed, with owning vehicle `c0` present) increment the owning vehicle's
`loyalty_points` at most once ever, and — once every request has finished —
exactly once in total, regardless of `n`; every other vehicle record is
untouched. -/
theorem concurrent_complete_single_increment
    (b i n : Nat) (ctx : AuthContext) (a0 : Assignment) (pre post : List Assignment)
    (c0 : Car) (cpre cpost : List Car) (db : DB) (σ : List Nat)
    (hctx : ctx.business_id = b)
    (hpre : ∀ y ∈ pre, (y.id == i) = false)
    (hai : a0.id = i) (hab : a0.business_id = b) (hast : a0.status ≠ "Completed")
    (hcpre : ∀ y ∈ cpre, carKey b a0.car_plate y = false)
    (hcp : c0.plate = a0.car_plate) (hcb : c0.business_id = b)
    (hA : db.assignments = pre ++ a0 :: post) (hC : db.cars = cpre ++ c0 :: cpost) :
    ∃ k, k ≤ 1 ∧
      (raceRun ctx i n db σ).db.cars
        = cpre ++ ({ c0 with loyalty_points := c0.loyalty_points + k }) :: cpost ∧
      ((∀ t ∈ (raceRun ctx i n db σ).threads, t.phase.isFinished = true) →
        1 ≤ n → k = 1) := by
  have hinv0 : Inv b i a0 pre post c0 cpre cpost
      { db := db, threads := List.replicate n { ctx := ctx, target := i, phase := .start } } := by
    refine ⟨false, 0, by simpa using hA, by simpa using hC, ?_, ?_⟩
    · intro t ht
      have he : t = { ctx := ctx, target := i, phase := .start } :=
        List.eq_of_mem_replicate ht
      subst he
      exact ⟨rfl, hctx, Or.inl rfl⟩
    · simp only [Bool.false_eq_true, if_false]
      refine ⟨by trivial, ?_⟩
      intro t ht
      have he : t = { ctx := ctx, target := i, phase := .start } :=
        List.eq_of_mem_replicate ht
      subst he
      exact Or.inl rfl
  have hinv := Inv_runSched b i a0 pre post c0 cpre cpost
    hpre hai hab hast hcpre hcp hcb σ _ hinv0
  have hlen : (raceRun ctx i n db σ).threads.length = n := by
    rw [raceRun, runSched_length]; simp
  rcases hinv with ⟨compl, k, hA', hC', hT', hcond'⟩
  cases compl with
  | false =>
    obtain ⟨hk, hSR⟩ : k = 0 ∧ ∀ t ∈ (raceRun ctx i n db σ).threads,
        t.phase = .start ∨ t.phase = .afterRead a0 := by simpa using hcond'
    subst hk
    refine ⟨0, by omega, hC', ?_⟩
    intro hfin hn
    have hne : (raceRun ctx i n db σ).threads ≠ [] :=
      List.ne_nil_of_length_pos (by omega)
    obtain ⟨t, ht⟩ := List.exists_mem_of_ne_nil _ hne
    have hf := hfin t ht
    rcases hSR t ht with h | h <;> rw [h] at hf <;> simp [TPhase.isFinished] at hf
  | true =>
    have hcnt : numCrediting (raceRun ctx i n db σ).threads + k = 1 := by
      simpa using hcond'
    refine ⟨k, by omega, hC', ?_⟩
    intro hfin hn
    have hzero : numCrediting (raceRun ctx i n db σ).threads = 0 := by
      refine numCrediting_eq_zero _ fun t ht => ?_
      have hf := hfin t ht
      cases hp : t.phase with
      | finished r => rfl
      | start => rw [hp] at hf; simp [TPhase.isFinished] at hf
      | afterRead a => rw [hp] at hf; simp [TPhase.isFinished] at hf
      | afterUpdate a => rw [hp] at hf; simp [TPhase.isFinished] at hf
    omega

/-- C2: `complete`'s conditional update uses the Mongo filter
`{"_id": obj_id, "business_id": business_id}` (`completeFilter`), so a row is
matched only if its `business_id` is the caller's; its `$set` writes
`status = "Completed"` and `points_earned = POINTS_PER_WASH` (constant 1),
and a row already holding those values is a fixed point of the `$set`, so the
update's `modified_count` semantics make it also filter (implicitly) by
not-yet-completed; and whenever the update reports zero rows modified, the
`complete` call in flight fails with the 404 error of line 336 and performs
no points credit: the cars collection is untouched. -/
theorem conditional_update_zero_rows_no_credit
    (ctx : AuthContext) (i : Nat) (a : Assignment) (db : DB)
    (h0 : (updateOne (completeFilter ctx.business_id i) completeSet db.assignments).2 = 0) :
    threadStep ctx i (.afterRead a) db
      = (.finished (.error .updateNotFound),
         { db with assignments :=
             (updateOne (completeFilter ctx.business_id i) completeSet db.assignments).1 }) ∧
    (threadStep ctx i (.afterRead a) db).2.cars = db.cars ∧
    ApiError.statusCode .updateNotFound = 404 ∧
    POINTS_PER_WASH = 1 ∧
    (∀ x, (completeSet x).status = "Completed"
      ∧ (completeSet x).points_earned = POINTS_PER_WASH) ∧
    (∀ x, completeFilter ctx.business_id i x = true → x.business_id = ctx.business_id) ∧
    (∀ x, completeSet x = x ↔ x.status = "Completed"
      ∧ x.points_earned = POINTS_PER_WASH) := by
  have h1 : threadStep ctx i (.afterRead a) db
      = (.finished (.error .updateNotFound),
         { db with assignments :=
             (updateOne (completeFilter ctx.business_id i) completeSet db.assignments).1 }) := by
    simp [threadStep, h0]
  refine ⟨h1, by rw [h1], rfl, rfl, fun x => ⟨rfl, rfl⟩, ?_, ?_⟩
  · intro x hx
    simp only [completeFilter, Bool.and_eq_true, beq_iff_eq] at hx
    exact hx.2
  · intro x
    constructor
    · intro h
      exact ⟨(congrArg Assignment.status h).symm ▸ rfl,
             (congrArg Assignment.points_earned h).symm ▸ rfl⟩
    · rintro ⟨h1, h2⟩
      cases x
      simp_all [completeSet]

/-- C2 witness: a store whose only assignment is already completed with its
point recorded makes the conditional update report zero modified rows, and
the call then fails with the 404 error without crediting any car. -/
theorem conditional_update_zero_rows_no_credit_witness :
    (updateOne (completeFilter 1 5) completeSet [completeSet asgW]).2 = 0 ∧
    threadStep ctxOne 5 (.afterRead asgW)
        { dbOne with assignments := [completeSet asgW] }
      = (.finished (.error .updateNotFound),
         { dbOne with assignments := [completeSet asgW] }) ∧
    ({ dbOne with assignments := [completeSet asgW] } : DB).cars = dbOne.cars :=
  ⟨by decide,
   (conditional_update_zero_rows_no_credit ctxOne 5 asgW
     { dbOne with assignments := [completeSet asgW] } (by decide)).1,
   rfl⟩

/-- C6: vehicle registration is idempotent.  If a vehicle with the caller's
business and the normalized plate already exists, `register_car` returns that
record and leaves the store untouched; if none exists, the inserted vehicle
starts with `loyalty_points = 0`; and in both cases registering the same
plate a second time returns exactly the first call's vehicle (same id, same
`loyalty_points`) and the same store, inserting no duplicate. -/
theorem register_car_idempotent (ctx : AuthContext) (cc : CarCreate) (db : DB) :
    (db.cars.find? (carKey ctx.business_id (upper cc.plate)) = none →
      (register_car ctx cc db).1.loyalty_points = 0) ∧
    (∀ c, db.cars.find? (carKey ctx.business_id (upper cc.plate)) = some c →
      register_car ctx cc db = (c, db)) ∧
    register_car ctx cc (register_car ctx cc db).2 = register_car ctx cc db := by
  have key := register_car_find ctx cc db
  have twice : register_car ctx cc (register_car ctx cc db).2
      = register_car ctx cc db := by
    generalize hr : register_car ctx cc db = r at key
    show register_car ctx cc r.2 = r
    simp [register_car, key]
  refine ⟨?_, ?_, twice⟩
  · intro h
    simp [register_car, h]
  · intro c hc
    simp [register_car, hc]

/-- C6 witness: registering plate "abc-123" twice in a store that does not
contain it returns the same vehicle both times, with `loyalty_points = 0`,
and does not change the store the second time. -/
theorem register_car_idempotent_witness :
    (register_car ctxOne ⟨"abc-123", "t", "o", "p"⟩ dbOne).1.loyalty_points = 0 ∧
    register_car ctxOne ⟨"abc-123", "t", "o", "p"⟩
        (register_car ctxOne ⟨"abc-123", "t", "o", "p"⟩ dbOne).2
      = register_car ctxOne ⟨"abc-123", "t", "o", "p"⟩ dbOne :=
  ⟨(register_car_idempotent ctxOne ⟨"abc-123", "t", "o", "p"⟩ dbOne).1 rfl,
   (register_car_idempotent ctxOne ⟨"abc-123", "t", "o", "p"⟩ dbOne).2.2⟩

/-- C7: plate handling is case-insensitive: `register_car`, `get_car`,
`get_car_history` and `create_assignment` all normalize the plate to
uppercase before any lookup or storage, so two case-variants `p` and `q` of
the same plate behave identically everywhere — and registering `p` then
fetching `q` (e.g. registering "abc-123" then fetching "ABC-123") returns
exactly the registered vehicle record. -/
theorem plate_case_insensitive (ctx : AuthContext) (p q : String) (db : DB)
    (t o ph e sv : String) (hpq : upper p = upper q) :
    get_car ctx q (register_car ctx ⟨p, t, o, ph⟩ db).2
        = .ok (register_car ctx ⟨p, t, o, ph⟩ db).1 ∧
    get_car ctx p db = get_car ctx q db ∧
    get_car_history ctx p db = get_car_history ctx q db ∧
    create_assignment ctx ⟨p, e, sv⟩ db = create_assignment ctx ⟨q, e, sv⟩ db ∧
    register_car ctx ⟨p, t, o, ph⟩ db = register_car ctx ⟨q, t, o, ph⟩ db := by
  refine ⟨?_, ?_, ?_, ?_, ?_⟩
  · have h := register_car_find ctx ⟨p, t, o, ph⟩ db
    simp only [get_car, ← hpq]
    simp [h]
  · simp only [get_car]
    rw [hpq]
  · simp only [get_car_history]
    rw [hpq]
  · simp only [create_assignment]
    rw [hpq]
  · simp only [register_car]
    rw [hpq]

/-- C7 witness: registering "abc-123" and then fetching "ABC-123" returns the
registered record, and lookups under either spelling agree. -/
theorem plate_case_insensitive_witness :
    upper "abc-123" = upper "ABC-123" ∧
    get_car ctxOne "ABC-123" (register_car ctxOne ⟨"abc-123", "t", "o", "p"⟩ dbOne).2
        = .ok (register_car ctxOne ⟨"abc-123", "t", "o", "p"⟩ dbOne).1 ∧
    get_car ctxOne "abc-123" dbOne = get_car ctxOne "ABC-123" dbOne :=
  ⟨by decide,
   (plate_case_insensitive ctxOne "abc-123" "ABC-123" dbOne "t" "o" "p" "e" "s"
     (by decide)).1,
   (plate_case_insensitive ctxOne "abc-123" "ABC-123" dbOne "t" "o" "p" "e" "s"
     (by decide)).2.1⟩

/-- C10: the three list-returning endpoints truncate their responses at 1000
records (the `.to_list(1000)` calls): each response holds at most 1000
records; when at most 1000 records match, the response is the complete
matching list; and when more than 1000 match, the response holds exactly
1000, so the matching records beyond the first 1000 are silently omitted
even though they exist in the store. -/
theorem list_endpoints_capped_at_1000 (ctx : AuthContext) (plate : String)
    (db : DB) (h : List Assignment) :
    (list_cars ctx db).length ≤ 1000 ∧
    (list_assignments ctx db).length ≤ 1000 ∧
    (get_car_history ctx plate db = .ok h → h.length ≤ 1000) ∧
    ((db.cars.filter fun c => c.business_id == ctx.business_id).length ≤ 1000 →
      list_cars ctx db = db.cars.filter fun c => c.business_id == ctx.business_id) ∧
    (1000 < (db.cars.filter fun c => c.business_id == ctx.business_id).length →
      (list_cars ctx db).length = 1000) ∧
    ((db.assignments.filter fun a =>
        a.status != "Completed" && a.business_id == ctx.business_id).length ≤ 1000 →
      list_assignments ctx db = db.assignments.filter fun a =>
        a.status != "Completed" && a.business_id == ctx.business_id) ∧
    (1000 < (db.assignments.filter fun a =>
        a.status != "Completed" && a.business_id == ctx.business_id).length →
      (list_assignments ctx db).length = 1000) ∧
    (get_car_history ctx plate db = .ok h →
      1000 < (db.assignments.filter (historyKey ctx.business_id (upper plate))).length →
      h.length = 1000) := by
  have hist : get_car_history ctx plate db = .ok h →
      h = (sortByIdDesc (db.assignments.filter
        (historyKey ctx.business_id (upper plate)))).take 1000 := by
    intro he
    simp only [get_car_history] at he
    cases hfind : db.cars.find? (carKey ctx.business_id (upper plate)) with
    | none => rw [hfind] at he; cases he
    | some c =>
      rw [hfind] at he
      cases he
      rfl
  have hlc : (list_cars ctx db).length
      = min 1000 (db.cars.filter fun c => c.business_id == ctx.business_id).length := by
    simp [list_cars]
  have hla : (list_assignments ctx db).length
      = min 1000 (db.assignments.filter fun a =>
          a.status != "Completed" && a.business_id == ctx.business_id).length := by
    simp [list_assignments]
  refine ⟨by omega, by omega, ?_, ?_, by omega, ?_, by omega, ?_⟩
  · intro he
    rw [hist he, List.length_take, length_sortByIdDesc]
    omega
  · intro hle
    exact List.take_of_length_le hle
  · intro hle
    exact List.take_of_length_le hle
  · intro he hgt
    rw [hist he, List.length_take, length_sortByIdDesc]
    omega

/-- C10 witness: in the sample store the listings are far below the cap, the
car listing is the complete matching list, and the (empty) history of plate
"XYZ999" respects the cap. -/
theorem list_endpoints_capped_at_1000_witness :
    (list_cars ctxOne dbOne).length ≤ 1000 ∧
    (list_cars ctxOne dbOne
      = dbOne.cars.filter fun c => c.business_id == ctxOne.business_id) ∧
    get_car_history ctxOne "XYZ999" dbOne = .ok [] ∧
    ([] : List Assignment).length ≤ 1000 :=
  ⟨(list_endpoints_capped_at_1000 ctxOne "XYZ999" dbOne []).1,
   (list_endpoints_capped_at_1000 ctxOne "XYZ999" dbOne []).2.2.2.1 (by decide),
   by decide,
   (list_endpoints_capped_at_1000 ctxOne "XYZ999" dbOne []).2.2.1 (by decide)⟩

/-- C9 counterexample: usernames are not unique in the user store.  `signup`
performs no uniqueness check, so two signups with username "alice" reach a
state whose user store holds two records both named "alice". -/
theorem signup_duplicate_username_counterexample :
    ((signup ⟨"Acme", "alice", "pw"⟩ (signup ⟨"Beta", "alice", "pw"⟩ emptyDB).2).2).users.map
        User.username = ["alice", "alice"] ∧
    ¬ (((signup ⟨"Acme", "alice", "pw"⟩ (signup ⟨"Beta", "alice", "pw"⟩ emptyDB).2).2).users.map
        User.username).Nodup := by
  exact ⟨rfl, by decide⟩

/-- C9 amended: `signup` enforces no username uniqueness: it unconditionally
appends one business and one user record carrying the requested username,
whatever the store already contains — in particular, signing up with an
already-existing username creates a second user record with that username. -/
theorem signup_always_inserts (d : SignupData) (db : DB) :
    (signup d db).2.users
      = db.users ++
          [{ username := d.username,
             hashed_password := get_password_hash d.password,
             business_id := db.nextId }] ∧
    (signup d db).2.businesses
      = db.businesses ++ [{ id := db.nextId, name := d.business_name }] ∧
    (signup d db).1 = db.nextId :=
  ⟨rfl, rfl, rfl⟩

/-- C8 counterexample: with the owning vehicle absent, `complete` marks the
assignment `Completed` and then fails — but with the `HTTPException` of
line 347, whose status code is 404, the very same code as `NotFound`, not a
500-equivalent error as the claim states. -/
theorem credit_failure_status_counterexample :
    (complete_assignment ctxOne 5 dbNoCar).1 = .error .creditNotFound ∧
    ApiError.statusCode .creditNotFound = 404 ∧
    ApiError.statusCode .creditNotFound = ApiError.statusCode .assignmentNotFound ∧
    ApiError.statusCode .creditNotFound ≠ 500 ∧
    (complete_assignment ctxOne 5 dbNoCar).2.assignments.map Assignment.status
      = ["Completed"] := by
  exact ⟨by decide, rfl, rfl, by decide, by decide⟩

/-- C8 amended: if, after the assignment has been successfully marked
`Completed` with `points_earned = POINTS_PER_WASH` recorded, the owning
vehicle cannot be found for the credit, `complete` fails with the dedicated
credit-failure error of line 347 — an error value distinct from the lookup's
NotFound but carried as HTTP 404, not as a 500-equivalent — and the
assignment remains `Completed` with its point recorded. -/
theorem credit_failure_amended (ctx : AuthContext) (pre post : List Assignment)
    (a : Assignment) (db : DB)
    (hA : db.assignments = pre ++ a :: post)
    (hpre : ∀ y ∈ pre, (y.id == a.id) = false)
    (hab : a.business_id = ctx.business_id)
    (hast : a.status ≠ "Completed")
    (hnocar : ∀ x ∈ db.cars, carKey ctx.business_id a.car_plate x = false) :
    complete_assignment ctx a.id db
      = (.error .creditNotFound, { db with assignments := pre ++ completeSet a :: post }) ∧
    (completeSet a).status = "Completed" ∧
    (completeSet a).points_earned = POINTS_PER_WASH ∧
    ApiError.statusCode .creditNotFound = 404 ∧
    ApiError.creditNotFound ≠ ApiError.assignmentNotFound := by
  have hfind : db.assignments.find? (fun x => x.id == a.id) = some a := by
    rw [hA]; exact find?_append_cons _ _ _ _ hpre (by simp)
  have hbus : (a.business_id != ctx.business_id) = false := by simp [hab]
  have hst : (a.status == "Completed") = false := by simp [hast]
  have hpreF : ∀ y ∈ pre, completeFilter ctx.business_id a.id y = false := by
    intro y hy; simp [completeFilter, hpre y hy]
  have hxF : completeFilter ctx.business_id a.id a = true := by
    simp [completeFilter, hab]
  have hne : completeSet a ≠ a := fun h => hast ((congrArg Assignment.status h).symm)
  have hupd : updateOne (completeFilter ctx.business_id a.id) completeSet db.assignments
      = (pre ++ completeSet a :: post, 1) := by
    rw [hA, updateOne_append_cons _ _ _ _ _ hpreF hxF, if_neg hne]
  have hcredit : findOneAndUpdate (carKey ctx.business_id a.car_plate) creditInc db.cars
      = (none, db.cars) :=
    findOneAndUpdate_no_match _ _ _ hnocar
  refine ⟨?_, rfl, rfl, rfl, by decide⟩
  simp [complete_assignment, hfind, hbus, hst, hupd, hcredit]

/-- C8 amended witness: in the carless sample store, completing the open
assignment yields the credit-failure 404 and leaves the assignment
completed. -/
theorem credit_failure_amended_witness :
    complete_assignment ctxOne asgW.id dbNoCar
      = (.error .creditNotFound, { dbNoCar with assignments := [completeSet asgW] }) ∧
    ApiError.statusCode .creditNotFound = 404 :=
  ⟨(credit_failure_amended ctxOne [] [] asgW dbNoCar rfl (by decide) (by decide)
      (by decide) (by decide)).1,
   (credit_failure_amended ctxOne [] [] asgW dbNoCar rfl (by decide) (by decide)
      (by decide) (by decide)).2.2.2.1⟩

/-- C5 counterexample: the claimed two-run noninterference fails, because
`complete`'s initial assignment lookup (line 312) carries no business
filter: business 1's caller completes id 5; with business 2's assignment
present the response is `Forbidden` (403), with business 2's data removed it
is `NotFound` (404) — although business 1's own records are identical (empty)
in both stores. -/
theorem cross_tenant_error_interference_counterexample :
    carsOf 1 dbOther = carsOf 1 emptyDB ∧
    assignmentsOf 1 dbOther = assignmentsOf 1 emptyDB ∧
    (complete_assignment ctxOne 5 dbOther).1 = .error .forbidden ∧
    (complete_assignment ctxOne 5 emptyDB).1 = .error .assignmentNotFound ∧
    (Except.error ApiError.forbidden : Except ApiError Car)
      ≠ .error .assignmentNotFound := by
  exact ⟨by decide, by decide, by decide, by decide, by decide⟩

/-- C5 amended: every store access of the downstream operations filters by
`context.business_id` except `complete`'s initial assignment lookup, which
fetches by `_id` alone and re-checks tenancy afterwards.  Consequently:
(i) the four read endpoints are noninterferent — their responses are
unchanged whenever the caller's own car and assignment records are unchanged,
however other businesses' data is altered or removed; and (ii) no operation
ever mutates another business's records: `complete`, `register_car` and
`create_assignment` leave every other business's car and assignment
projections intact.  Only `complete`'s *error kind* (`Forbidden` versus
`NotFound`, see the counterexample) can depend on another business's data. -/
theorem tenant_isolation_amended (ctx : AuthContext) (plate : String)
    (i b2 : Nat) (cc : CarCreate) (ac : AssignmentCreate) (db db1 db2 : DB)
    (hcars : carsOf ctx.business_id db1 = carsOf ctx.business_id db2)
    (hasg : assignmentsOf ctx.business_id db1 = assignmentsOf ctx.business_id db2)
    (hb2 : b2 ≠ ctx.business_id) :
    get_car ctx plate db1 = get_car ctx plate db2 ∧
    list_cars ctx db1 = list_cars ctx db2 ∧
    list_assignments ctx db1 = list_assignments ctx db2 ∧
    get_car_history ctx plate db1 = get_car_history ctx plate db2 ∧
    carsOf b2 (complete_assignment ctx i db).2 = carsOf b2 db ∧
    assignmentsOf b2 (complete_assignment ctx i db).2 = assignmentsOf b2 db ∧
    carsOf b2 (register_car ctx cc db).2 = carsOf b2 db ∧
    assignmentsOf b2 (create_assignment ctx ac db).2 = assignmentsOf b2 db := by
  have himpCar : ∀ x : Car, carKey ctx.business_id (upper plate) x = true →
      (x.business_id == ctx.business_id) = true := by
    intro x hx
    simp only [carKey, Bool.and_eq_true] at hx
    exact hx.2
  have hcars' : db1.cars.filter (fun c => c.business_id == ctx.business_id)
      = db2.cars.filter (fun c => c.business_id == ctx.business_id) := hcars
  have hasg' : db1.assignments.filter (fun a => a.business_id == ctx.business_id)
      = db2.assignments.filter (fun a => a.business_id == ctx.business_id) := hasg
  have e1 : db1.cars.find? (carKey ctx.business_id (upper plate))
      = db2.cars.find? (carKey ctx.business_id (upper plate)) := by
    rw [← find?_filter_of_imp _ _ db1.cars himpCar,
        ← find?_filter_of_imp _ _ db2.cars himpCar, hcars']
  have hnotb2 : (ctx.business_id == b2) = false := by
    simpa using (Ne.symm hb2)
  refine ⟨?_, ?_, ?_, ?_, ?_, ?_, ?_, ?_⟩
  · simp only [get_car, e1]
  · simp only [list_cars, hcars']
  · have himpA : ∀ x : Assignment,
        (x.status != "Completed" && x.business_id == ctx.business_id) = true →
        (x.business_id == ctx.business_id) = true := by
      intro x hx
      simp only [Bool.and_eq_true] at hx
      exact hx.2
    simp only [list_assignments]
    rw [← filter_filter_of_imp _ _ db1.assignments himpA,
        ← filter_filter_of_imp _ _ db2.assignments himpA, hasg']
  · have himpH : ∀ x : Assignment,
        historyKey ctx.business_id (upper plate) x = true →
        (x.business_id == ctx.business_id) = true := by
      intro x hx
      simp only [historyKey, Bool.and_eq_true] at hx
      exact hx.2
    have e2 : db1.assignments.filter (historyKey ctx.business_id (upper plate))
        = db2.assignments.filter (historyKey ctx.business_id (upper plate)) := by
      rw [← filter_filter_of_imp _ _ db1.assignments himpH,
          ← filter_filter_of_imp _ _ db2.assignments himpH, hasg']
    simp only [get_car_history, e1, e2]
  · -- complete mutates no other business's cars
    cases hfind : db.assignments.find? (fun a => a.id == i) with
    | none => simp [complete_assignment, hfind, carsOf]
    | some a =>
      by_cases hb : (a.business_id != ctx.business_id) = true
      · simp [complete_assignment, hfind, hb, carsOf]
      · by_cases hc : (a.status == "Completed") = true
        · simp [complete_assignment, hfind, hb, hc, carsOf]
        · have hpres : ((findOneAndUpdate (carKey ctx.business_id a.car_plate)
              creditInc db.cars).2).filter (fun c => c.business_id == b2)
              = db.cars.filter (fun c => c.business_id == b2) := by
            refine filter_findOneAndUpdate_of_disjoint _ _ _ _ ?_ ?_
            · intro x hx
              simp only [carKey, Bool.and_eq_true, beq_iff_eq] at hx
              simp [hx.2, hnotb2]
            · intro x hx
              simp only [carKey, Bool.and_eq_true, beq_iff_eq] at hx
              simp [creditInc, hx.2]
              exact fun hh => hb2 hh.symm
          by_cases hz : ((updateOne (completeFilter ctx.business_id i)
              completeSet db.assignments).2 == 0) = true
          · simp [complete_assignment, hfind, hb, hc, hz, carsOf]
          · cases hcred : (findOneAndUpdate (carKey ctx.business_id a.car_plate)
                creditInc db.cars).1 with
            | none => simp [complete_assignment, hfind, hb, hc, hz, hcred, carsOf, hpres]
            | some c => simp [complete_assignment, hfind, hb, hc, hz, hcred, carsOf, hpres]
  · -- complete mutates no other business's assignments
    have hpres : ((updateOne (completeFilter ctx.business_id i)
        completeSet db.assignments).1).filter (fun a => a.business_id == b2)
        = db.assignments.filter (fun a => a.business_id == b2) := by
      refine filter_updateOne_of_disjoint _ _ _ _ ?_ ?_
      · intro x hx
        simp only [completeFilter, Bool.and_eq_true, beq_iff_eq] at hx
        simp [hx.2]
        exact fun hh => hb2 hh.symm
      · intro x hx
        simp only [completeFilter, Bool.and_eq_true, beq_iff_eq] at hx
        simp [completeSet, hx.2]
        exact fun hh => hb2 hh.symm
    cases hfind : db.assignments.find? (fun a => a.id == i) with
    | none => simp [complete_assignment, hfind, assignmentsOf]
    | some a =>
      by_cases hb : (a.business_id != ctx.business_id) = true
      · simp [complete_assignment, hfind, hb, assignmentsOf]
      · by_cases hc : (a.status == "Completed") = true
        · simp [complete_assignment, hfind, hb, hc, assignmentsOf]
        · by_cases hz : ((updateOne (completeFilter ctx.business_id i)
              completeSet db.assignments).2 == 0) = true
          · simp [complete_assignment, hfind, hb, hc, hz, assignmentsOf, hpres]
          · cases hcred : (findOneAndUpdate (carKey ctx.business_id a.car_plate)
                creditInc db.cars).1 with
            | none => simp [complete_assignment, hfind, hb, hc, hz, hcred, assignmentsOf, hpres]
            | some c => simp [complete_assignment, hfind, hb, hc, hz, hcred, assignmentsOf, hpres]
  · -- register_car mutates no other business's cars
    cases hfind : db.cars.find? (carKey ctx.business_id (upper cc.plate)) with
    | some c => simp [register_car, hfind, carsOf]
    | none => simp [register_car, hfind, carsOf, List.filter_append, hnotb2]
  · -- create_assignment mutates no other business's assignments
    cases hfind : db.cars.find? (carKey ctx.business_id (upper ac.car_plate)) with
    | none => simp [create_assignment, hfind, assignmentsOf]
    | some c => simp [create_assignment, hfind, assignmentsOf, List.filter_append, hnotb2]

/-- C5 amended witness: with business 2's data differing between two stores
whose business-1 projections agree, the read endpoints of business 1 agree,
and a completion attempt in the store with business 2's assignment does not
touch business 2's records. -/
theorem tenant_isolation_amended_witness :
    carsOf 1 dbOther = carsOf 1 emptyDB ∧
    assignmentsOf 1 dbOther = assignmentsOf 1 emptyDB ∧
    (2 : Nat) ≠ 1 ∧
    get_car ctxOne "XYZ999" dbOther = get_car ctxOne "XYZ999" emptyDB ∧
    carsOf 2 (complete_assignment ctxOne 5 dbOther).2 = carsOf 2 dbOther :=
  ⟨by decide, by decide, by decide,
   (tenant_isolation_amended ctxOne "XYZ999" 5 2 ⟨"A", "t", "o", "p"⟩
     ⟨"A", "e", "s"⟩ dbOther dbOther emptyDB (by decide) (by decide) (by decide)).1,
   (tenant_isolation_amended ctxOne "XYZ999" 5 2 ⟨"A", "t", "o", "p"⟩
     ⟨"A", "e", "s"⟩ dbOther dbOther emptyDB (by decide) (by decide) (by decide)).2.2.2.2.1⟩

/-- C1 witness: completing the open sample assignment awards exactly one
point to its vehicle, and a second sequential completion fails with
`AlreadyCompleted`, leaving the store unchanged. -/
theorem complete_twice_witness :
    (complete_assignment ctxOne asgW.id dbOne).1
      = .ok { carX with loyalty_points := carX.loyalty_points + POINTS_PER_WASH } ∧
    complete_assignment ctxOne asgW.id (complete_assignment ctxOne asgW.id dbOne).2
      = (.error .alreadyCompleted, (complete_assignment ctxOne asgW.id dbOne).2) :=
  complete_twice_first_awards_then_already_completed ctxOne [] [] asgW [] [] carX dbOne
    rfl (by decide) (by decide) (by decide) rfl (by decide) (by decide) (by decide)

/-- C4 witness: business 1's caller completing business 2's assignment gets
`Forbidden` (403) and the store is returned untouched. -/
theorem complete_cross_tenant_witness :
    complete_assignment ctxOne 5 dbOther = (.error .forbidden, dbOther) ∧
    ApiError.statusCode .forbidden = 403 :=
  complete_cross_tenant_forbidden_no_mutation ctxOne 5 asgOther dbOther
    (by decide) (by decide)

/-- C3 witness: two interleaved completion calls (reads interleaved before
the updates) on the sample store finish with exactly one point awarded in
total. -/
theorem concurrent_complete_single_increment_witness :
    ∃ k, k ≤ 1 ∧
      (raceRun ctxOne 5 2 dbOne [0, 1, 0, 1, 0, 1]).db.cars
        = [{ carX with loyalty_points := carX.loyalty_points + k }] ∧
      ((∀ t ∈ (raceRun ctxOne 5 2 dbOne [0, 1, 0, 1, 0, 1]).threads,
          t.phase.isFinished = true) → 1 ≤ 2 → k = 1) :=
  concurrent_complete_single_increment 1 5 2 ctxOne asgW [] [] carX [] [] dbOne
    [0, 1, 0, 1, 0, 1] rfl (by decide) rfl (by decide) (by decide) (by decide)
    rfl (by decide) rfl rfl

end Carwash
